import Mathlib

/-!
Verification of the growth-metrics and aggregation engine of the
vehicle-registration dashboard (src/project/utils.py, src/project/data_loader.py,
src/project/charts.py), as a shallow embedding in Lean.

Registration counts are modelled as integers (pandas sums int64 columns
exactly); percentages are modelled as exact rationals.  Python's true division
on integer totals produces floats, but at the scales involved the rational
value is what the code denotes; the rounding helpers reproduce the
half-to-even rounding used by numpy/pandas, on exact rationals.  Dates are
modelled as (year, month, day) triples with a day-count ordinal, so that
pandas timedelta arithmetic and the dt.month / dt.quarter / dt.year accessors
become integer arithmetic.  A pandas operation that raises is modelled as an
Option-valued function returning none.
-/

namespace VehicleDash

/-- Calendar date at day granularity, mirroring a pandas Timestamp (the source
data always uses midnight timestamps). -/
structure Date where
  year : Int
  month : Int
  day : Int
  deriving DecidableEq, Repr

/-- Day count of a civil date (days since 1970-01-01, proleptic Gregorian),
the standard days-from-civil algorithm; it models the instant underlying a
pandas Timestamp, so that timedelta arithmetic (90- and 365-day shifts) and
date comparisons become integer arithmetic.  Faithful for years ≥ 1, which
covers every date this program can see. -/
def daysFromCivil (y m d : Int) : Int :=
  let y' := if m ≤ 2 then y - 1 else y
  let era := (if 0 ≤ y' then y' else y' - 399) / 400
  let yoe := y' - era * 400
  let mp := if 2 < m then m - 3 else m + 9
  let doy := (153 * mp + 2) / 5 + d - 1
  let doe := yoe * 365 + yoe / 4 - yoe / 100 + doy
  era * 146097 + doe - 719468

/-- Day-count ordinal of a Date. -/
def Date.ord (dt : Date) : Int := daysFromCivil dt.year dt.month dt.day

/-- Quarter number of a Date, as pandas dt.quarter computes it. -/
def Date.quarter (dt : Date) : Int := (dt.month - 1) / 3 + 1

/-- One row of the registration table: the columns of the source data read by
the analysis functions.  The loader's redundant quarter and year columns are
omitted: every analysis function recomputes them from date via the dt
accessor and none reads the stored copies. -/
structure Record where
  date : Date
  vehicle_category : String
  vehicle_class : String
  manufacturer : String
  state : String
  registrations : Int
  deriving DecidableEq, Repr

/-- Sum of the registrations column over a list of rows, the meaning of
pandas Series.sum on a filtered frame (exact integer summation; an empty
selection sums to 0, which is the implicit zero-fill the spec points out). -/
def sumRegs (l : List Record) : Int := (l.map Record.registrations).sum

/-- Embedding of calculate_percentage_change (src/project/utils.py lines
26-32): with previous = 0 it returns 0 when current = 0 and 100 otherwise;
else the signed percentage (current - previous)/previous * 100. -/
def calculate_percentage_change (current previous : Int) : ℚ :=
  if previous = 0 then (if current = 0 then 0 else 100)
  else ((current : ℚ) - (previous : ℚ)) / (previous : ℚ) * 100

/-- Embedding of the local calculate_growth closure inside get_growth_metrics
(src/project/data_loader.py lines 127-130): returns 0 unconditionally when
previous = 0, else the signed percentage. -/
def calculate_growth (current previous : Int) : ℚ :=
  if previous = 0 then 0
  else ((current : ℚ) - (previous : ℚ)) / (previous : ℚ) * 100

/-- Lower-casing of a category tag, the meaning of the Python str.lower call
used to interpolate metric keys (the tags are ASCII). -/
def lowerStr (s : String) : String := String.mk (s.data.map Char.toLower)

/-- Maximum of a list of integers, the meaning of Series.max on a non-empty
integer column (0 on the empty list, where pandas would return NaN; every use
below is either guarded by non-emptiness or harmless on the empty frame
because all filters of an empty frame are empty). -/
def maxInt : List Int → Int
  | [] => 0
  | [x] => x
  | x :: y :: t => max x (maxInt (y :: t))

/-- Maximum date ordinal in a record list, the meaning of df['date'].max(). -/
def maxOrd (df : List Record) : Int := maxInt (df.map fun r => r.date.ord)

/-- Maximum year, the meaning of df['date'].dt.year.max(). -/
def maxYear (df : List Record) : Int := maxInt (df.map fun r => r.date.year)

/-- Maximum quarter number over the whole frame, the meaning of
df['date'].dt.quarter.max() (note: over all years, not within the maximum
year). -/
def maxQuarter (df : List Record) : Int := maxInt (df.map fun r => r.date.quarter)

/-- Registration total of the rows of one vehicle category, the meaning of
rows[rows['vehicle_category'] == c]['registrations'].sum() (an explicit 0 when
the category has no rows). -/
def catTotal (rows : List Record) (c : String) : Int :=
  sumRegs (rows.filter fun r => decide (r.vehicle_category = c))

/-- Embedding of get_growth_metrics (src/project/data_loader.py lines
108-151): current_date = max date; current window keeps rows with
date ≥ current_date - 90 days; previous-year window keeps rows with
current_date - 365 - 90 ≤ date < current_date - 365; previous-quarter window
keeps rows with current_date - 90 - 90 ≤ date < current_date - 90; sums per
category (2W, 3W, 4W) and in total feed the local calculate_growth; the
result lists the metrics dict entries in insertion order with the
f-string-interpolated keys. -/
def get_growth_metrics (df : List Record) : List (String × ℚ) :=
  let current_date := maxOrd df
  let previous_year_date := current_date - 365
  let previous_quarter_date := current_date - 90
  let current_data := df.filter fun r => decide (previous_quarter_date ≤ r.date.ord)
  let prev_year_data := df.filter fun r =>
    decide (previous_year_date - 90 ≤ r.date.ord) &&
      decide (r.date.ord < previous_year_date)
  let prev_quarter_data := df.filter fun r =>
    decide (previous_quarter_date - 90 ≤ r.date.ord) &&
      decide (r.date.ord < previous_quarter_date)
  (["2W", "3W", "4W"].map fun c =>
    [(lowerStr c ++ "_yoy_growth",
        calculate_growth (catTotal current_data c) (catTotal prev_year_data c)),
     (lowerStr c ++ "_qoq_growth",
        calculate_growth (catTotal current_data c) (catTotal prev_quarter_data c))]).flatten
  ++ [("total_yoy_growth",
        calculate_growth (sumRegs current_data) (sumRegs prev_year_data)),
      ("total_qoq_growth",
        calculate_growth (sumRegs current_data) (sumRegs prev_quarter_data))]

/-- The current window as the spec words it: the last 90 days ending at the
maximum date in the data (rows with maxOrd - 90 ≤ date ≤ maxOrd). -/
def specCurrentRows (df : List Record) : List Record :=
  df.filter fun r =>
    decide (maxOrd df - 90 ≤ r.date.ord) && decide (r.date.ord ≤ maxOrd df)

/-- The previous-quarter window as the spec words it: the 90 days immediately
before the current window. -/
def specPrevQuarterRows (df : List Record) : List Record :=
  df.filter fun r =>
    decide (maxOrd df - 180 ≤ r.date.ord) && decide (r.date.ord < maxOrd df - 90)

/-- The previous-year window as the spec words it: the 90-day window ending
exactly 365 days before the maximum date (a fixed offset, not calendar-year
arithmetic). -/
def specPrevYearRows (df : List Record) : List Record :=
  df.filter fun r =>
    decide (maxOrd df - 455 ≤ r.date.ord) && decide (r.date.ord < maxOrd df - 365)

/-- Growth metrics as the spec describes them: per-category sums (explicit 0
for a category with no rows in a window) over the three windows above, growth
percentages for 2W, 3W, 4W and for the grand total. -/
def growthMetricsSpec (df : List Record) : List (String × ℚ) :=
  let cur := specCurrentRows df
  let py := specPrevYearRows df
  let pq := specPrevQuarterRows df
  (["2W", "3W", "4W"].map fun c =>
    [(lowerStr c ++ "_yoy_growth",
        calculate_growth (catTotal cur c) (catTotal py c)),
     (lowerStr c ++ "_qoq_growth",
        calculate_growth (catTotal cur c) (catTotal pq c))]).flatten
  ++ [("total_yoy_growth", calculate_growth (sumRegs cur) (sumRegs py)),
      ("total_qoq_growth", calculate_growth (sumRegs cur) (sumRegs pq))]

/-- Round to the nearest integer with ties to even, the rounding Python's
string formatting and numpy apply, modelled on exact rationals. -/
def rhe (q : ℚ) : Int :=
  if Int.fract q < 1/2 then ⌊q⌋
  else if 1/2 < Int.fract q then ⌊q⌋ + 1
  else if Even ⌊q⌋ then ⌊q⌋ else ⌊q⌋ + 1

/-- Rounding to one decimal digit, pandas Series.round(1). -/
def round1 (q : ℚ) : ℚ := (rhe (q * 10) : ℚ) / 10

/-- Rounding to two decimal digits, pandas round(2). -/
def round2 (q : ℚ) : ℚ := (rhe (q * 100) : ℚ) / 100

/-- One-fractional-digit decimal rendering of a rational, the meaning of
Python's {x:.1f} format on these values (round half to even, sign
preserved). -/
def fmtOneDec (q : ℚ) : String :=
  let t := rhe (q * 10)
  let digits := toString (t.natAbs / 10) ++ "." ++ toString (t.natAbs % 10)
  if t < 0 then "-" ++ digits else digits

/-- Comma-separate a reversed digit list into groups of three, helper for the
thousands-separator rendering of Python's {n:,.0f} format. -/
def commaGroupRev (ds : List Char) : List Char :=
  if _h : ds.length ≤ 3 then ds
  else ds.take 3 ++ ',' :: commaGroupRev (ds.drop 3)
termination_by ds.length
decreasing_by simp [List.length_drop]; omega

/-- Integer rendered with thousands separators, the {n:,.0f} formatting of an
integer-valued magnitude. -/
def commaSep (n : Nat) : String :=
  String.mk ((commaGroupRev (toString n).data.reverse).reverse)

/-- Embedding of format_number (src/project/utils.py lines 10-24) on integer
inputs (the NaN guard lies outside the integer model; the dashboard passes
integer totals): "0" for zero, then Cr / L / K branches on absolute-value
thresholds with one decimal digit, else the integer with thousands
separators. -/
def format_number (num : Int) : String :=
  if num = 0 then "0"
  else if 10000000 ≤ |num| then fmtOneDec ((num : ℚ) / 10000000) ++ "Cr"
  else if 100000 ≤ |num| then fmtOneDec ((num : ℚ) / 100000) ++ "L"
  else if 1000 ≤ |num| then fmtOneDec ((num : ℚ) / 1000) ++ "K"
  else if num < 0 then "-" ++ commaSep num.natAbs else commaSep num.natAbs

/-- Lexicographic comparison of char lists by code point, the order Python
uses on strings (helper for strLe). -/
def strLeAux : List Char → List Char → Bool
  | [], _ => true
  | _ :: _, [] => false
  | a :: as, b :: bs =>
    if a.toNat < b.toNat then true
    else if b.toNat < a.toNat then false
    else strLeAux as bs

/-- Lexicographic string comparison by code point, the total order pandas
applies when sorting group keys. -/
def strLe (s t : String) : Bool := strLeAux s.data t.data

/-- First-occurrence deduplication, the key order of pandas Series.unique. -/
def firstDedup {α : Type} [DecidableEq α] : List α → List α
  | [] => []
  | a :: l => a :: firstDedup (l.filter fun x => decide (x ≠ a))
termination_by l => l.length
decreasing_by
  simp
  exact Nat.lt_succ_of_le (List.length_filter_le _ _)

/-- Distinct keys in ascending order, the index produced by pandas
groupby(sort=True). -/
def sortedKeys {α : Type} [DecidableEq α] (le : α → α → Bool) (l : List α) :
    List α :=
  (firstDedup l).mergeSort le

/-- The group-by-sum reduction of the Aggregation Engine: the mapping from
each distinct key to the registration total of its rows, keys in ascending
order, the meaning of df.groupby(key)['registrations'].sum(). -/
def groupSumBy {α : Type} [DecidableEq α] (le : α → α → Bool)
    (key : Record → α) (df : List Record) : List (α × Int) :=
  (sortedKeys le (df.map key)).map
    fun k => (k, sumRegs (df.filter fun r => decide (key r = k)))

/-- Grouping column selected by calculate_market_share's group_by argument
(src/project/utils.py lines 54-59): 'manufacturer' and 'category' are the two
special-cased names; any other value names a raw column of the frame.  A
string that names no column raises KeyError in pandas and lies outside this
model; the theorems below only instantiate known columns. -/
def keyOfGroupBy (g : String) (r : Record) : String :=
  if g = "manufacturer" then r.manufacturer
  else if g = "category" then r.vehicle_category
  else if g = "state" then r.state
  else if g = "vehicle_class" then r.vehicle_class
  else if g = "vehicle_category" then r.vehicle_category
  else r.manufacturer

/-- Embedding of calculate_market_share (src/project/utils.py lines 48-63):
group totals over the grouped column (keys ascending, pandas groupby), each
divided by the grand total, times 100, rounded to 2 decimals, then sorted
descending by percentage.  pandas sort_values uses numpy quicksort, which
falls back to a stable insertion sort on small arrays; the model uses a
stable descending sort, and the general theorems below rely only on
membership and sortedness, never on tie order. -/
def calculate_market_share (df : List Record) (group_by : String) :
    List (String × ℚ) :=
  let key := keyOfGroupBy group_by
  let total := sumRegs df
  ((sortedKeys strLe (df.map key)).map fun k =>
      (k, round2 ((sumRegs (df.filter fun r => decide (key r = k)) : ℚ) /
        (total : ℚ) * 100))).mergeSort fun a b => decide (b.2 ≤ a.2)

/-- Market share as the claim words it: entities taken in original
first-appearance order and then stably sorted descending by percentage, so
that equal percentages keep first-appearance order. -/
def marketShareClaim (df : List Record) (group_by : String) :
    List (String × ℚ) :=
  let key := keyOfGroupBy group_by
  let total := sumRegs df
  ((firstDedup (df.map key)).map fun k =>
      (k, round2 ((sumRegs (df.filter fun r => decide (key r = k)) : ℚ) /
        (total : ℚ) * 100))).mergeSort fun a b => decide (b.2 ≤ a.2)

/-- Mean of the registrations column over a list of rows (pandas Series.mean)
as an exact rational; pandas yields NaN on an empty selection, which cannot
arise at the call sites below because each month key comes from the data. -/
def meanRegs (l : List Record) : ℚ := (sumRegs l : ℚ) / (l.length : ℚ)

/-- The fixed month-name list of get_seasonal_patterns. -/
def month_names : List String :=
  ["Jan", "Feb", "Mar", "Apr", "May", "Jun",
   "Jul", "Aug", "Sep", "Oct", "Nov", "Dec"]

/-- The per-month mean registrations of get_seasonal_patterns: calendar
months pooled across all years (the derived month column), keys ascending as
pandas groupby produces them. -/
def monthlyAvgs (df : List Record) : List (Int × ℚ) :=
  (sortedKeys (fun a b => decide (a ≤ b)) (df.map fun r => r.date.month)).map
    fun m => (m, meanRegs (df.filter fun r => decide (r.date.month = m)))

/-- Embedding of get_seasonal_patterns (src/project/utils.py lines 65-85):
per-month means, overall mean of the monthly means, seasonal index rounded to
one decimal.  The function finally pairs the fixed 12-entry month-name list
with the per-month aggregates in one DataFrame; pandas raises ValueError when
the column lengths differ, so the result is modelled as none unless exactly
12 distinct months are present.  (Its in-place month-column mutation is
modelled separately for the frame-effect analysis.) -/
def get_seasonal_patterns (df : List Record) : Option (List (String × ℚ × ℚ)) :=
  let avgs := monthlyAvgs df
  let overall := (avgs.map Prod.snd).sum / (avgs.length : ℚ)
  if avgs.length = 12 then
    some ((month_names.zip avgs).map fun p =>
      (p.1, p.2.2, round1 (p.2.2 / overall * 100)))
  else none

/-- A live DataFrame as other consumers observe it: the rows plus the names
of derived columns added in place to the shared frame (pandas column
assignment is visible to every holder of the frame).  The schema-level model
tracks which derived columns exist; a fresh frame from the loader has none of
the derived names used by the chart helpers. -/
structure Frame where
  rows : List Record
  extraCols : List String
  deriving DecidableEq, Repr

/-- Column assignment df[c] = ..., as it affects the shared frame's schema: a
new derived column becomes visible to all consumers (assigning an existing
name overwrites its values, which the schema-level model does not track). -/
def addCol (df : Frame) (c : String) : Frame :=
  if c ∈ df.extraCols then df else { df with extraCols := df.extraCols ++ [c] }

/-- Ascending order on (year_quarter, category) composite keys. -/
def pairStrLe (a b : String × String) : Bool :=
  if a.1 = b.1 then strLe a.2 b.2 else strLe a.1 b.1

/-- Ascending order on (month, category) composite keys. -/
def monthCatLe (a b : Int × String) : Bool :=
  if a.1 = b.1 then strLe a.2 b.2 else decide (a.1 ≤ b.1)

/-- Ascending order on (year, month) month-period keys. -/
def ymLe (a b : Int × Int) : Bool :=
  if a.1 = b.1 then decide (a.2 ≤ b.2) else decide (a.1 ≤ b.1)

/-- Ascending order on (month period, category) composite keys. -/
def trendLe (a b : (Int × Int) × String) : Bool :=
  if a.1 = b.1 then strLe a.2 b.2 else ymLe a.1 b.1

/-- The year_quarter label string built by create_quarterly_comparison. -/
def yearQuarterStr (d : Date) : String :=
  toString d.year ++ "-Q" ++ toString d.quarter

/-- The aggregation behind create_quarterly_comparison (src/project/charts.py
lines 168-186): registrations summed per (year_quarter, category). -/
def create_quarterly_comparison_data (df : List Record) :
    List ((String × String) × Int) :=
  groupSumBy pairStrLe (fun r => (yearQuarterStr r.date, r.vehicle_category)) df

/-- The aggregation behind create_heatmap_analysis (src/project/charts.py
lines 232-239): registrations summed per (month, category). -/
def create_heatmap_analysis_data (df : List Record) :
    List ((Int × String) × Int) :=
  groupSumBy monthCatLe (fun r => (r.date.month, r.vehicle_category)) df

/-- The aggregation behind create_trend_chart (src/project/charts.py lines
29-35): registrations summed per (month period, category). -/
def create_trend_chart_data (df : List Record) :
    List (((Int × Int) × String) × Int) :=
  groupSumBy trendLe (fun r => ((r.date.year, r.date.month), r.vehicle_category)) df

/-- State-passing embedding of get_seasonal_patterns: before aggregating it
executes df['month'] = df['date'].dt.month on the shared frame
(src/project/utils.py line 69). -/
def get_seasonal_patterns_st (df : Frame) :
    Option (List (String × ℚ × ℚ)) × Frame :=
  (get_seasonal_patterns df.rows, addCol df "month")

/-- State-passing embedding of create_quarterly_comparison: it executes
df['quarter'] = df['date'].dt.quarter and df['year_quarter'] = ... on the
shared frame (src/project/charts.py lines 173-174); the returned value is the
chart's aggregated data. -/
def create_quarterly_comparison_st (df : Frame) :
    List ((String × String) × Int) × Frame :=
  (create_quarterly_comparison_data df.rows,
    addCol (addCol df "quarter") "year_quarter")

/-- State-passing embedding of create_heatmap_analysis: it executes
df['month'] = df['date'].dt.month on the shared frame (src/project/charts.py
line 237); the returned value is the heatmap's aggregated data. -/
def create_heatmap_analysis_st (df : Frame) :
    List ((Int × String) × Int) × Frame :=
  (create_heatmap_analysis_data df.rows, addCol df "month")

/-- The period argument of identify_growth_leaders; any other string leaves
current_data unbound in the Python source and raises NameError, so the model
restricts to the two meaningful values. -/
inductive Period where
  | YoY
  | QoQ
  deriving DecidableEq, Repr

/-- One row of the growth-leaders ranking frame. -/
structure GLEntry where
  etype : String
  name : String
  current : Int
  previous : Int
  growth_rate : ℚ
  deriving DecidableEq, Repr

/-- The current-period frame of identify_growth_leaders (src/project/utils.py
lines 91-99): the maximum year, and for QoQ additionally the maximum quarter
over the whole frame. -/
def currentRows (df : List Record) : Period → List Record
  | .YoY => df.filter fun r => decide (r.date.year = maxYear df)
  | .QoQ => df.filter fun r =>
      decide (r.date.year = maxYear df) && decide (r.date.quarter = maxQuarter df)

/-- The previous-period frame of identify_growth_leaders
(src/project/utils.py lines 95, 100-101): the preceding year for YoY; for QoQ
the same calendar year with quarter number one less (never wrapping to Q4 of
the preceding year). -/
def previousRows (df : List Record) : Period → List Record
  | .YoY => df.filter fun r => decide (r.date.year = maxYear df - 1)
  | .QoQ => df.filter fun r =>
      decide (r.date.year = maxYear df) &&
        decide (r.date.quarter = maxQuarter df - 1)

/-- One candidate ranking row of identify_growth_leaders (src/project/utils.py
lines 106-133): kept only when the entity's previous-period total is strictly
positive. -/
def glFor (df : List Record) (p : Period) (etype : String)
    (keyf : Record → String) (nm : String) : Option GLEntry :=
  let ct := sumRegs ((currentRows df p).filter fun r => decide (keyf r = nm))
  let pt := sumRegs ((previousRows df p).filter fun r => decide (keyf r = nm))
  if 0 < pt then some ⟨etype, nm, ct, pt, calculate_percentage_change ct pt⟩
  else none

/-- The unsorted growth_leaders rows: manufacturers in first-appearance order
(pandas unique), then categories. -/
def glEntries (df : List Record) (p : Period) : List GLEntry :=
  (firstDedup (df.map Record.manufacturer)).filterMap
      (glFor df p "Manufacturer" Record.manufacturer)
  ++ (firstDedup (df.map Record.vehicle_category)).filterMap
      (glFor df p "Category" Record.vehicle_category)

/-- Embedding of identify_growth_leaders (src/project/utils.py lines 87-136):
the candidate rows sorted descending by Growth_Rate.  When no entity
qualifies, pd.DataFrame of the empty list has no Growth_Rate column and
sort_values raises KeyError, modelled as none. -/
def identify_growth_leaders (df : List Record) (p : Period) :
    Option (List GLEntry) :=
  let entries := glEntries df p
  if entries = [] then none
  else some (entries.mergeSort fun a b => decide (b.growth_rate ≤ a.growth_rate))

/-- Tie input for the market-share order analysis: manufacturer B appears
before manufacturer A, both with the same volume. -/
def tieDf : List Record :=
  [⟨⟨2024, 1, 1⟩, "2W", "MOTORCYCLE", "B", "Maharashtra", 5⟩,
   ⟨⟨2024, 1, 1⟩, "2W", "MOTORCYCLE", "A", "Maharashtra", 5⟩]

/-- Uniform-volume input with all twelve calendar months present. -/
def uniformYearDf : List Record :=
  ([1, 2, 3, 4, 5, 6, 7, 8, 9, 10, 11, 12] : List Int).map fun m =>
    ⟨⟨2024, m, 1⟩, "2W", "MOTORCYCLE", "Hero MotoCorp", "Maharashtra", 5⟩

/-- Input whose previous-year frame is empty: a single record in the maximum
year. -/
def onlyCurrentYearDf : List Record :=
  [⟨⟨2024, 2, 1⟩, "2W", "MOTORCYCLE", "Hero MotoCorp", "Maharashtra", 10⟩]

/-- Input whose latest record falls in Q1 of the maximum year while an older
year reaches Q2, so the overall maximum quarter is 2. -/
def q1LatestDf : List Record :=
  [⟨⟨2023, 5, 1⟩, "2W", "MOTORCYCLE", "M1", "Maharashtra", 10⟩,
   ⟨⟨2024, 1, 1⟩, "2W", "MOTORCYCLE", "M1", "Maharashtra", 7⟩]

/-- Input with a strictly positive previous-year total: the same manufacturer
in two consecutive years. -/
def twoYearDf : List Record :=
  [⟨⟨2023, 3, 1⟩, "2W", "MOTORCYCLE", "Hero MotoCorp", "Maharashtra", 5⟩,
   ⟨⟨2024, 3, 1⟩, "2W", "MOTORCYCLE", "Hero MotoCorp", "Maharashtra", 7⟩]

/-- Two-row collection and its swap, for the order-independence witness. -/
def permDfA : List Record :=
  [⟨⟨2024, 1, 1⟩, "2W", "MOTORCYCLE", "Hero MotoCorp", "Maharashtra", 3⟩,
   ⟨⟨2024, 2, 1⟩, "3W", "E-RICKSHAW", "Bajaj Auto", "Gujarat", 4⟩]

/-- The same two rows in the opposite order. -/
def permDfB : List Record :=
  [⟨⟨2024, 2, 1⟩, "3W", "E-RICKSHAW", "Bajaj Auto", "Gujarat", 4⟩,
   ⟨⟨2024, 1, 1⟩, "2W", "MOTORCYCLE", "Hero MotoCorp", "Maharashtra", 3⟩]

end VehicleDash

namespace VehicleDash

theorem le_maxInt {l : List Int} {x : Int} (h : x ∈ l) : x ≤ maxInt l := by
  induction l with
  | nil => cases h
  | cons a t ih =>
    cases t with
    | nil =>
      rcases List.mem_cons.mp h with h1 | h1
      · subst h1; exact le_refl _
      · cases h1
    | cons b t' =>
      rcases List.mem_cons.mp h with h1 | h1
      · subst h1; exact le_max_left _ _
      · exact le_trans (ih h1) (le_max_right _ _)

theorem maxInt_const {l : List Int} {c : Int} (hne : l ≠ [])
    (h : ∀ x ∈ l, x = c) : maxInt l = c := by
  induction l with
  | nil => cases hne rfl
  | cons a t ih =>
    cases t with
    | nil =>
      simp only [maxInt]
      exact h a (List.mem_cons_self _ _)
    | cons b t' =>
      have ha : a = c := h a (List.mem_cons_self _ _)
      have ht : maxInt (b :: t') = c :=
        ih (by simp) fun x hx => h x (List.mem_cons_of_mem _ hx)
      simp only [maxInt, ha, ht, max_self]

theorem le_maxOrd {l : List Record} {r : Record} (h : r ∈ l) :
    r.date.ord ≤ maxOrd l :=
  le_maxInt (List.mem_map_of_mem _ h)

theorem current_rows_eq (df : List Record) :
    (df.filter fun r => decide (maxOrd df - 90 ≤ r.date.ord)) =
      specCurrentRows df := by
  unfold specCurrentRows
  refine List.filter_congr fun r hr => ?_
  have hle : r.date.ord ≤ maxOrd df := le_maxOrd hr
  simp [hle]

theorem prev_year_rows_eq (df : List Record) :
    (df.filter fun r =>
        decide (maxOrd df - 365 - 90 ≤ r.date.ord) &&
          decide (r.date.ord < maxOrd df - 365)) =
      specPrevYearRows df := by
  unfold specPrevYearRows
  refine List.filter_congr fun r _ => ?_
  have harith : maxOrd df - 365 - 90 = maxOrd df - 455 := by ring
  rw [harith]

theorem prev_quarter_rows_eq (df : List Record) :
    (df.filter fun r =>
        decide (maxOrd df - 90 - 90 ≤ r.date.ord) &&
          decide (r.date.ord < maxOrd df - 90)) =
      specPrevQuarterRows df := by
  unfold specPrevQuarterRows
  refine List.filter_congr fun r _ => ?_
  have harith : maxOrd df - 90 - 90 = maxOrd df - 180 := by ring
  rw [harith]

/-- C2: on every non-empty record collection, get_growth_metrics computes
exactly the spec's three 90-day windows relative to the maximum date (current
window [max-90, max]; previous quarter [max-180, max-90); previous year
[max-455, max-365), a fixed 365-day offset), sums registrations per category
in each window with an explicit zero when the category has no rows there, and
returns growth percentages for 2W, 3W, 4W and the grand total, under the keys
listed. -/
theorem c2_growth_metrics_windows (df : List Record) (_h : df ≠ []) :
    get_growth_metrics df = growthMetricsSpec df ∧
    (get_growth_metrics df).map Prod.fst =
      ["2w_yoy_growth", "2w_qoq_growth", "3w_yoy_growth", "3w_qoq_growth",
       "4w_yoy_growth", "4w_qoq_growth", "total_yoy_growth",
       "total_qoq_growth"] := by
  constructor
  · simp only [get_growth_metrics, growthMetricsSpec]
    rw [current_rows_eq df, prev_year_rows_eq df, prev_quarter_rows_eq df]
  · simp only [get_growth_metrics, List.map_cons, List.map_nil,
      List.flatten_cons, List.flatten_nil, List.map_append, List.append_nil]
    decide

/-- C2 witness: the theorem instantiated at a one-row collection. -/
theorem c2_growth_metrics_windows_witness :
    get_growth_metrics [⟨⟨2024, 3, 1⟩, "2W", "MOTORCYCLE", "Hero MotoCorp",
        "Maharashtra", 100⟩] =
      growthMetricsSpec [⟨⟨2024, 3, 1⟩, "2W", "MOTORCYCLE", "Hero MotoCorp",
        "Maharashtra", 100⟩] :=
  (c2_growth_metrics_windows _ (by decide)).1

/-- C1: counterexample.  At (current, previous) = (100, 0) the two growth
implementations disagree: utils' calculate_percentage_change returns 100,
while data_loader's calculate_growth returns the documented reference value 0,
so the claim that both follow the zero-unconditionally policy is false. -/
theorem c1_counterexample :
    calculate_percentage_change 100 0 = 100 ∧ calculate_growth 100 0 = 0 := by
  constructor <;> norm_num [calculate_percentage_change, calculate_growth]

/-- C1 (amended): with previous = 0, calculate_growth follows the documented
reference policy and returns 0 unconditionally, while
calculate_percentage_change returns 0 exactly when current = 0 and 100
otherwise; hence the two call sites agree at previous = 0 precisely when
current = 0. -/
theorem c1_zero_previous_policy (current : Int) :
    calculate_growth current 0 = 0 ∧
    (current = 0 → calculate_percentage_change current 0 = 0) ∧
    (current ≠ 0 → calculate_percentage_change current 0 = 100) ∧
    (calculate_percentage_change current 0 = calculate_growth current 0 ↔
      current = 0) := by
  by_cases h : current = 0 <;>
    simp [calculate_percentage_change, calculate_growth, h]

/-- C1 witness: the amended statement instantiated at current = 5. -/
theorem c1_zero_previous_policy_witness :
    calculate_percentage_change 5 0 = 100 ∧ calculate_growth 5 0 = 0 :=
  ⟨(c1_zero_previous_policy 5).2.2.1 (by decide),
   (c1_zero_previous_policy 5).1⟩

theorem floor_le_rhe (q : ℚ) : ⌊q⌋ ≤ rhe q := by
  unfold rhe
  split_ifs <;> omega

theorem rhe_neg (q : ℚ) : rhe (-q) = -rhe q := by
  by_cases h0 : Int.fract q = 0
  · have h0' : q - ⌊q⌋ = 0 := by rw [Int.self_sub_floor]; exact h0
    have hq : q = (⌊q⌋ : ℚ) := by linarith
    have hfq : ⌊-q⌋ = -⌊q⌋ := by
      conv_lhs => rw [hq, ← Int.cast_neg]
      rw [Int.floor_intCast]
    have hf0 : Int.fract (-q) = 0 := by
      conv_lhs => rw [hq, ← Int.cast_neg]
      rw [Int.fract_intCast]
    unfold rhe
    rw [h0, hf0, hfq]
    norm_num
  · have hpos : 0 < Int.fract q := lt_of_le_of_ne (Int.fract_nonneg q) (Ne.symm h0)
    have hlt : Int.fract q < 1 := Int.fract_lt_one q
    have hfn : Int.fract (-q) = 1 - Int.fract q := Int.fract_neg h0
    have hfloor : (⌊q⌋ : ℚ) ≤ q := Int.floor_le q
    have hceil : q < (⌊q⌋ : ℚ) + 1 := Int.lt_floor_add_one q
    have hstrict : (⌊q⌋ : ℚ) < q := by
      have : 0 < q - ⌊q⌋ := by rw [Int.self_sub_floor]; exact hpos
      linarith
    have hfq : ⌊-q⌋ = -⌊q⌋ - 1 := by
      rw [Int.floor_eq_iff]
      constructor
      · push_cast
        linarith
      · push_cast
        linarith
    unfold rhe
    rw [hfn, hfq]
    simp only [Int.even_iff]
    rcases lt_trichotomy (Int.fract q) (1/2) with hc | hc | hc <;>
      · split_ifs <;> first | omega | linarith

theorem fmtOneDec_neg {q : ℚ} (h : 1 ≤ q) : fmtOneDec (-q) = "-" ++ fmtOneDec q := by
  unfold fmtOneDec
  have h10 : (10:ℚ) ≤ q * 10 := by linarith
  have ht : (10:Int) ≤ rhe (q * 10) :=
    le_trans (Int.le_floor.mpr (by exact_mod_cast h10)) (floor_le_rhe _)
  have hneg : (-q) * 10 = -(q * 10) := by ring
  rw [hneg, rhe_neg]
  have h1 : ¬ (rhe (q * 10) < 0) := by omega
  have h2 : -rhe (q * 10) < 0 := by omega
  simp [h1, h2, Int.natAbs_neg]

/-- C6: format_number realises the Indian-numbering contract of the spec: the
four documented round-trips hold, and negative numbers are formatted
symmetrically (sign preserved, magnitude thresholds applied to the absolute
value); totality holds by construction. -/
theorem c6_format_number_contract (n : Int) :
    format_number 12345678 = "1.2Cr" ∧
    format_number 250000 = "2.5L" ∧
    format_number 4500 = "4.5K" ∧
    format_number 0 = "0" ∧
    (0 < n → format_number (-n) = "-" ++ format_number n) := by
  refine ⟨?_, ?_, ?_, ?_, ?_⟩
  · norm_num [format_number, fmtOneDec, rhe, Int.fract]
    rfl
  · norm_num [format_number, fmtOneDec, rhe, Int.fract]
    rfl
  · norm_num [format_number, fmtOneDec, rhe, Int.fract]
    rfl
  · norm_num [format_number]
  · intro hn
    have hn0 : n ≠ 0 := ne_of_gt hn
    have hnn0 : -n ≠ 0 := by omega
    unfold format_number
    rw [if_neg hnn0, if_neg hn0, abs_neg]
    by_cases h1 : (10000000:Int) ≤ |n|
    · rw [if_pos h1, if_pos h1]
      have hn' : (10000000:Int) ≤ n := by rwa [abs_of_pos hn] at h1
      have hq : (1:ℚ) ≤ (n:ℚ) / 10000000 := by
        rw [le_div_iff₀ (by norm_num)]
        norm_num
        exact_mod_cast hn'
      have hc : ((-n : Int) : ℚ) / 10000000 = -((n:ℚ) / 10000000) := by
        push_cast
        ring
      rw [hc, fmtOneDec_neg hq, String.append_assoc]
    · rw [if_neg h1, if_neg h1]
      by_cases h2 : (100000:Int) ≤ |n|
      · rw [if_pos h2, if_pos h2]
        have hn' : (100000:Int) ≤ n := by rwa [abs_of_pos hn] at h2
        have hq : (1:ℚ) ≤ (n:ℚ) / 100000 := by
          rw [le_div_iff₀ (by norm_num)]
          norm_num
          exact_mod_cast hn'
        have hc : ((-n : Int) : ℚ) / 100000 = -((n:ℚ) / 100000) := by
          push_cast
          ring
        rw [hc, fmtOneDec_neg hq, String.append_assoc]
      · rw [if_neg h2, if_neg h2]
        by_cases h3 : (1000:Int) ≤ |n|
        · rw [if_pos h3, if_pos h3]
          have hn' : (1000:Int) ≤ n := by rwa [abs_of_pos hn] at h3
          have hq : (1:ℚ) ≤ (n:ℚ) / 1000 := by
            rw [le_div_iff₀ (by norm_num)]
            norm_num
            exact_mod_cast hn'
          have hc : ((-n : Int) : ℚ) / 1000 = -((n:ℚ) / 1000) := by
            push_cast
            ring
          rw [hc, fmtOneDec_neg hq, String.append_assoc]
        · rw [if_neg h3, if_neg h3]
          have hneg : -n < 0 := by omega
          have hnneg : ¬ (n < 0) := by omega
          rw [if_pos hneg, if_neg hnneg, Int.natAbs_neg]

/-- C6 witness: the symmetry clause of the contract instantiated at 4500. -/
theorem c6_format_number_contract_witness :
    format_number (-4500) = "-" ++ format_number 4500 :=
  (c6_format_number_contract 4500).2.2.2.2 (by norm_num)

theorem charToNat_inj {a b : Char} (h : a.toNat = b.toNat) : a = b :=
  Char.ext (UInt32.ext h)

theorem strLeAux_total : ∀ as bs : List Char,
    strLeAux as bs = true ∨ strLeAux bs as = true := by
  intro as
  induction as with
  | nil => intro bs; left; rfl
  | cons a as ih =>
    intro bs
    cases bs with
    | nil => right; rfl
    | cons b bs =>
      by_cases hab : a.toNat < b.toNat
      · left
        simp [strLeAux, hab]
      · by_cases hba : b.toNat < a.toNat
        · right
          simp [strLeAux, hba]
        · rcases ih bs with h | h
          · left
            simp [strLeAux, hab, hba, h]
          · right
            simp [strLeAux, hab, hba, h]

theorem strLeAux_trans : ∀ as bs cs : List Char, strLeAux as bs = true →
    strLeAux bs cs = true → strLeAux as cs = true := by
  intro as
  induction as with
  | nil => intro bs cs _ _; rfl
  | cons a as ih =>
    intro bs cs h1 h2
    cases bs with
    | nil => simp [strLeAux] at h1
    | cons b bs =>
      cases cs with
      | nil => simp [strLeAux] at h2
      | cons c cs =>
        simp only [strLeAux] at h1 h2 ⊢
        split_ifs at h1 h2 ⊢ with g1 g2 g3 g4 g5 g6 <;>
          first
            | rfl
            | omega
            | (exact ih bs cs h1 h2)

theorem strLeAux_antisymm : ∀ as bs : List Char, strLeAux as bs = true →
    strLeAux bs as = true → as = bs := by
  intro as
  induction as with
  | nil =>
    intro bs h1 h2
    cases bs with
    | nil => rfl
    | cons b bs => simp [strLeAux] at h2
  | cons a as ih =>
    intro bs h1 h2
    cases bs with
    | nil => simp [strLeAux] at h1
    | cons b bs =>
      simp only [strLeAux] at h1 h2
      split_ifs at h1 h2 with g1 g2 <;> try omega
      have hab : a = b := charToNat_inj (by omega)
      rw [hab, ih bs h1 h2]

theorem strLe_trans (s t u : String) (h1 : strLe s t = true)
    (h2 : strLe t u = true) : strLe s u = true :=
  strLeAux_trans _ _ _ h1 h2

theorem strLe_total (s t : String) : strLe s t = true ∨ strLe t s = true :=
  strLeAux_total _ _

theorem strLe_antisymm (s t : String) (h1 : strLe s t = true)
    (h2 : strLe t s = true) : s = t := by
  have hd : s.data = t.data := strLeAux_antisymm _ _ h1 h2
  cases s
  simp_all

theorem mem_firstDedup {α : Type} [DecidableEq α] (l : List α) (a : α) :
    a ∈ firstDedup l ↔ a ∈ l := by
  induction l using firstDedup.induct with
  | case1 => simp [firstDedup]
  | case2 b t ih =>
    rw [firstDedup]
    by_cases hab : a = b
    · simp [hab]
    · simp only [List.mem_cons, ih, List.mem_filter, hab, false_or,
        decide_eq_true_eq]
      constructor
      · exact fun h => h.1
      · exact fun h => ⟨h, by simpa using hab⟩

theorem firstDedup_nodup {α : Type} [DecidableEq α] (l : List α) :
    (firstDedup l).Nodup := by
  induction l using firstDedup.induct with
  | case1 => simp [firstDedup]
  | case2 b t ih =>
    rw [firstDedup]
    refine List.nodup_cons.mpr ⟨?_, ih⟩
    rw [mem_firstDedup]
    simp

theorem mem_sortedKeys {α : Type} [DecidableEq α] (le : α → α → Bool)
    (l : List α) (a : α) : a ∈ sortedKeys le l ↔ a ∈ l := by
  unfold sortedKeys
  rw [(List.mergeSort_perm _ le).mem_iff, mem_firstDedup]

theorem sortedKeys_nodup {α : Type} [DecidableEq α] (le : α → α → Bool)
    (l : List α) : (sortedKeys le l).Nodup :=
  ((List.mergeSort_perm _ le).nodup_iff).mpr (firstDedup_nodup l)

theorem sortedKeys_eq_of_perm {α : Type} [DecidableEq α] {le : α → α → Bool}
    (htrans : ∀ a b c, le a b = true → le b c = true → le a c = true)
    (htotal : ∀ a b, le a b = true ∨ le b a = true)
    (hanti : ∀ a b, le a b = true → le b a = true → a = b)
    {l l' : List α} (h : l.Perm l') :
    sortedKeys le l = sortedKeys le l' := by
  have hbtotal : ∀ a b, (le a b || le b a) = true := by
    intro a b
    rcases htotal a b with hx | hx <;> simp [hx]
  have hd : (firstDedup l).Perm (firstDedup l') := by
    rw [List.perm_ext_iff_of_nodup (firstDedup_nodup l) (firstDedup_nodup l')]
    intro a
    rw [mem_firstDedup, mem_firstDedup]
    exact h.mem_iff
  have hp : (sortedKeys le l).Perm (sortedKeys le l') :=
    ((List.mergeSort_perm _ le).trans hd).trans (List.mergeSort_perm _ le).symm
  have : IsAntisymm α (fun a b => le a b = true) := ⟨hanti⟩
  exact List.eq_of_perm_of_sorted hp
    (List.sorted_mergeSort htrans hbtotal _)
    (List.sorted_mergeSort htrans hbtotal _)

theorem sum_map_add {α : Type} (f g : α → Int) (l : List α) :
    (l.map fun x => f x + g x).sum = (l.map f).sum + (l.map g).sum := by
  induction l with
  | nil => simp
  | cons a t ih =>
    simp only [List.map_cons, List.sum_cons, ih]
    ring

theorem sum_ite_zero_of_notmem {α : Type} [DecidableEq α] {a : α} (x : Int) :
    ∀ ks : List α, a ∉ ks →
      (ks.map fun k => if a = k then x else 0).sum = 0 := by
  intro ks
  induction ks with
  | nil => intro _; rfl
  | cons k t ih =>
    intro h
    have hak : a ≠ k := fun hc => h (hc ▸ List.mem_cons_self _ _)
    have hat : a ∉ t := fun hc => h (List.mem_cons_of_mem _ hc)
    simp [hak, ih hat]

theorem sum_ite_of_mem {α : Type} [DecidableEq α] {a : α} (x : Int) :
    ∀ ks : List α, ks.Nodup → a ∈ ks →
      (ks.map fun k => if a = k then x else 0).sum = x := by
  intro ks
  induction ks with
  | nil => intro _ h; cases h
  | cons k t ih =>
    intro hnd hmem
    rcases List.mem_cons.mp hmem with hak | hat
    · subst hak
      have hnot : a ∉ t := (List.nodup_cons.mp hnd).1
      simp [sum_ite_zero_of_notmem x t hnot]
    · have hak : a ≠ k := by
        rintro rfl
        exact (List.nodup_cons.mp hnd).1 hat
      simp [hak, ih (List.nodup_cons.mp hnd).2 hat]

theorem sum_filter_partition {α : Type} [DecidableEq α] (key : Record → α) :
    ∀ (df : List Record) (ks : List α), ks.Nodup → (∀ r ∈ df, key r ∈ ks) →
      (ks.map fun k => sumRegs (df.filter fun r => decide (key r = k))).sum =
        sumRegs df := by
  intro df
  induction df with
  | nil =>
    intro ks _ _
    simp [sumRegs]
  | cons r t ih =>
    intro ks hnd hcov
    have hstep : ∀ k : α, sumRegs ((r :: t).filter fun x => decide (key x = k)) =
        (if key r = k then r.registrations else 0) +
          sumRegs (t.filter fun x => decide (key x = k)) := by
      intro k
      by_cases hk : key r = k
      · simp [List.filter_cons, hk, sumRegs]
      · simp [List.filter_cons, hk, sumRegs]
    simp only [hstep]
    rw [sum_map_add (fun k => if key r = k then r.registrations else 0)
      (fun k => sumRegs (t.filter fun x => decide (key x = k))) ks]
    rw [sum_ite_of_mem r.registrations ks hnd (hcov r (List.mem_cons_self _ _))]
    rw [ih ks hnd fun x hx => hcov x (List.mem_cons_of_mem _ hx)]
    simp [sumRegs]

theorem groupSumBy_mass {α : Type} [DecidableEq α] (le : α → α → Bool)
    (key : Record → α) (df : List Record) :
    ((groupSumBy le key df).map Prod.snd).sum = sumRegs df := by
  unfold groupSumBy
  rw [List.map_map]
  exact sum_filter_partition key df _ (sortedKeys_nodup le _)
    fun r hr => (mem_sortedKeys le _ _).mpr (List.mem_map_of_mem key hr)

theorem groupSumBy_order_independent {α : Type} [DecidableEq α]
    {le : α → α → Bool}
    (htrans : ∀ a b c, le a b = true → le b c = true → le a c = true)
    (htotal : ∀ a b, le a b = true ∨ le b a = true)
    (hanti : ∀ a b, le a b = true → le b a = true → a = b)
    (key : Record → α) {df df' : List Record} (h : df.Perm df') :
    groupSumBy le key df = groupSumBy le key df' := by
  unfold groupSumBy
  rw [sortedKeys_eq_of_perm htrans htotal hanti (h.map key)]
  refine List.map_congr_left fun k _ => ?_
  have hsum : sumRegs (df.filter fun r => decide (key r = k)) =
      sumRegs (df'.filter fun r => decide (key r = k)) := by
    unfold sumRegs
    exact ((h.filter fun r => decide (key r = k)).map Record.registrations).sum_eq
  rw [hsum]

/-- C9: the group-by-sum aggregation of the Aggregation Engine preserves total
registration mass (the values summed over all groups equal the registrations
summed over all records), and for any total, transitive, antisymmetric key
order the whole aggregation result is identical for every permutation of the
input rows: deterministic, order-independent, exact integer summation. -/
theorem c9_aggregation_mass_and_order (α : Type) [DecidableEq α]
    (le : α → α → Bool) (key : Record → α) (df df' : List Record)
    (htrans : ∀ a b c, le a b = true → le b c = true → le a c = true)
    (htotal : ∀ a b, le a b = true ∨ le b a = true)
    (hanti : ∀ a b, le a b = true → le b a = true → a = b)
    (hperm : df.Perm df') :
    ((groupSumBy le key df).map Prod.snd).sum = sumRegs df ∧
    groupSumBy le key df = groupSumBy le key df' :=
  ⟨groupSumBy_mass le key df,
   groupSumBy_order_independent htrans htotal hanti key hperm⟩

/-- C9 witness: manufacturer-keyed aggregation on a two-row collection and its
swap. -/
theorem c9_aggregation_mass_and_order_witness :
    ((groupSumBy strLe Record.manufacturer permDfA).map Prod.snd).sum =
      sumRegs permDfA ∧
    groupSumBy strLe Record.manufacturer permDfA =
      groupSumBy strLe Record.manufacturer permDfB :=
  c9_aggregation_mass_and_order String strLe Record.manufacturer permDfA permDfB
    strLe_trans strLe_total strLe_antisymm (by decide)

theorem map_fst_pairs {α β : Type} (f : α → β) (l : List α) :
    (l.map fun k => (k, f k)).map Prod.fst = l := by
  induction l with
  | nil => rfl
  | cons a t ih => simp [ih]

unseal Nat.gcd Rat.mul Rat.add Rat.sub Rat.inv List.merge List.mergeSort firstDedup in
/-- C4: counterexample to stable first-appearance tie-breaking.  With
manufacturer B appearing before A and equal volumes, the code emits A before B
(groupby reorders the keys ascending before the value sort), while the
claim's first-appearance order would keep B before A. -/
theorem c4_tie_order_counterexample :
    (calculate_market_share tieDf "manufacturer").map Prod.fst = ["A", "B"] ∧
    (marketShareClaim tieDf "manufacturer").map Prod.fst = ["B", "A"] := by
  constructor <;> decide

/-- C4 (amended): for every non-empty collection and known grouping key,
calculate_market_share returns exactly the distinct entities of the grouped
column, each mapped to its summed registrations divided by the grand total,
times 100, rounded to 2 decimals, ordered descending by percentage.  Ties are
not broken by original first appearance: groupby reorders the keys ascending
before the value sort, so equal percentages come out in ascending key
order. -/
theorem c4_market_share_contract (df : List Record) (g : String)
    (_hne : df ≠ []) (_hg : g = "manufacturer" ∨ g = "category") :
    ((calculate_market_share df g).map Prod.fst).Perm
        (firstDedup (df.map (keyOfGroupBy g))) ∧
    (∀ p ∈ calculate_market_share df g,
        p.2 = round2 ((sumRegs (df.filter fun r =>
            decide (keyOfGroupBy g r = p.1)) : ℚ) / (sumRegs df : ℚ) * 100)) ∧
    List.Sorted (fun a b : String × ℚ => b.2 ≤ a.2)
      (calculate_market_share df g) := by
  have htrans : ∀ a b c : String × ℚ, decide (b.2 ≤ a.2) = true →
      decide (c.2 ≤ b.2) = true → decide (c.2 ≤ a.2) = true := by
    intro a b c h1 h2
    simp only [decide_eq_true_eq] at h1 h2 ⊢
    exact le_trans h2 h1
  have htotal : ∀ a b : String × ℚ,
      (decide (b.2 ≤ a.2) || decide (a.2 ≤ b.2)) = true := by
    intro a b
    rcases le_total a.2 b.2 with h | h <;> simp [h]
  refine ⟨?_, ?_, ?_⟩
  · simp only [calculate_market_share]
    refine ((List.mergeSort_perm _ _).map Prod.fst).trans ?_
    rw [map_fst_pairs]
    exact List.mergeSort_perm _ _
  · intro p hp
    simp only [calculate_market_share] at hp
    have hp' := (List.mergeSort_perm _ _).mem_iff.mp hp
    obtain ⟨k, hk, rfl⟩ := List.mem_map.mp hp'
    rfl
  · simp only [calculate_market_share]
    exact List.Pairwise.imp (fun h => of_decide_eq_true h)
      (List.sorted_mergeSort htrans htotal _)

/-- C4 witness: the entity clause instantiated on the tie collection. -/
theorem c4_market_share_contract_witness :
    ((calculate_market_share tieDf "manufacturer").map Prod.fst).Perm
      (firstDedup (tieDf.map (keyOfGroupBy "manufacturer"))) :=
  (c4_market_share_contract tieDf "manufacturer" (by decide) (Or.inl rfl)).1

unseal Nat.gcd Rat.mul Rat.add Rat.sub Rat.inv List.merge List.mergeSort firstDedup in
/-- C5: the pooling and index formula hold, but partial month coverage does
not yield a partial table: on a January-only collection the function raises
(the 12 fixed month names cannot be paired with one aggregated row; modelled
none) instead of yielding an entry only for January.  On full 12-month
coverage with uniform monthly means every month's seasonal index is 100. -/
theorem c5_seasonal_patterns :
    get_seasonal_patterns
        [⟨⟨2024, 1, 1⟩, "2W", "MOTORCYCLE", "Hero MotoCorp", "Maharashtra", 5⟩]
      = none ∧
    ∀ (df : List Record) (c : ℚ), c ≠ 0 →
      (∀ p ∈ monthlyAvgs df, p.2 = c) → (monthlyAvgs df).length = 12 →
      ∃ out, get_seasonal_patterns df = some out ∧ ∀ e ∈ out, e.2.2 = 100 := by
  constructor
  · decide
  · intro df c hc hunif hlen
    have hsome : get_seasonal_patterns df =
        some ((month_names.zip (monthlyAvgs df)).map fun p =>
          (p.1, p.2.2, round1 (p.2.2 /
            (((monthlyAvgs df).map Prod.snd).sum /
              ((monthlyAvgs df).length : ℚ)) * 100))) := by
      simp only [get_seasonal_patterns]
      rw [if_pos hlen]
    refine ⟨_, hsome, ?_⟩
    intro e he
    obtain ⟨p, hp, rfl⟩ := List.mem_map.mp he
    have hpm : p.2 ∈ monthlyAvgs df := (List.of_mem_zip hp).2
    have hval : p.2.2 = c := hunif p.2 hpm
    have hrep : (monthlyAvgs df).map Prod.snd = List.replicate 12 c := by
      rw [List.eq_replicate_iff]
      constructor
      · rw [List.length_map, hlen]
      · intro b hb
        obtain ⟨p', hp', rfl⟩ := List.mem_map.mp hb
        exact hunif p' hp'
    have hsum : ((monthlyAvgs df).map Prod.snd).sum = 12 * c := by
      rw [hrep, List.sum_replicate, nsmul_eq_mul]
      norm_num
    have hoverall : ((monthlyAvgs df).map Prod.snd).sum /
        ((monthlyAvgs df).length : ℚ) = c := by
      rw [hsum, hlen]
      norm_num
    show round1 (p.2.2 / _ * 100) = 100
    rw [hval, hoverall, div_self hc]
    norm_num [round1, rhe, Int.fract]

unseal Nat.gcd Rat.mul Rat.add Rat.sub Rat.inv List.merge List.mergeSort firstDedup in
/-- C5 witness: on the uniform full-coverage collection the function returns
a table (the uniform clause instantiated at mean 5). -/
theorem c5_seasonal_patterns_witness :
    (get_seasonal_patterns uniformYearDf).isSome = true := by
  obtain ⟨out, hout, -⟩ :=
    c5_seasonal_patterns.2 uniformYearDf 5 (by norm_num) (by decide) (by decide)
  rw [hout]
  rfl

unseal Nat.gcd Rat.mul Rat.add Rat.sub Rat.inv List.merge List.mergeSort firstDedup in
/-- C8: on the empty collection, market share returns an empty mapping with
no error and the growth metrics return the all-zero dict through the
zero-previous policy of calculate_growth; get_seasonal_patterns, however,
raises (modelled none): the 12 fixed month names cannot be paired with an
empty aggregate. -/
theorem c8_empty_collection :
    calculate_market_share [] "manufacturer" = [] ∧
    calculate_market_share [] "category" = [] ∧
    get_seasonal_patterns [] = none ∧
    get_growth_metrics [] =
      [("2w_yoy_growth", 0), ("2w_qoq_growth", 0), ("3w_yoy_growth", 0),
       ("3w_qoq_growth", 0), ("4w_yoy_growth", 0), ("4w_qoq_growth", 0),
       ("total_yoy_growth", 0), ("total_qoq_growth", 0)] := by
  refine ⟨?_, ?_, ?_, ?_⟩ <;> decide

/-- C3: each downstream helper mutates the shared frame in place.  Starting
from a fresh frame (no derived columns), after get_seasonal_patterns a month
column is visible to every consumer of the frame; after
create_quarterly_comparison quarter and year_quarter columns are; after
create_heatmap_analysis a month column is — none of these is a
non-destructive projection. -/
theorem c3_inplace_mutation :
    (⟨tieDf, []⟩ : Frame).extraCols = [] ∧
    (get_seasonal_patterns_st ⟨tieDf, []⟩).2.extraCols = ["month"] ∧
    (create_quarterly_comparison_st ⟨tieDf, []⟩).2.extraCols =
      ["quarter", "year_quarter"] ∧
    (create_heatmap_analysis_st ⟨tieDf, []⟩).2.extraCols = ["month"] := by
  refine ⟨rfl, ?_, ?_, ?_⟩ <;>
    simp [get_seasonal_patterns_st, create_quarterly_comparison_st,
      create_heatmap_analysis_st, addCol]

theorem glFor_eq_some {df : List Record} {p : Period} {etype : String}
    {keyf : Record → String} {nm : String} {e : GLEntry}
    (h : glFor df p etype keyf nm = some e) :
    0 < e.previous ∧ e.etype = etype ∧ e.name = nm := by
  simp only [glFor] at h
  split_ifs at h with hpt
  cases h
  exact ⟨hpt, rfl, rfl⟩

theorem glFor_pos {df : List Record} {p : Period} (etype : String)
    (keyf : Record → String) (nm : String)
    (hpt : 0 < sumRegs ((previousRows df p).filter fun r =>
      decide (keyf r = nm))) :
    glFor df p etype keyf nm = some
      ⟨etype, nm,
        sumRegs ((currentRows df p).filter fun r => decide (keyf r = nm)),
        sumRegs ((previousRows df p).filter fun r => decide (keyf r = nm)),
        calculate_percentage_change
          (sumRegs ((currentRows df p).filter fun r => decide (keyf r = nm)))
          (sumRegs ((previousRows df p).filter fun r => decide (keyf r = nm)))⟩ := by
  simp only [glFor]
  rw [if_pos hpt]

unseal firstDedup in
/-- C7: counterexample to the universal quantification.  On a collection
whose records all lie in the maximum year, no entity has a strictly positive
previous-year total, the ranking frame is empty with no Growth_Rate column,
and the final sort_values raises (modelled none): no ranking is produced at
all, rather than the empty ranking the claim implies. -/
theorem c7_counterexample :
    identify_growth_leaders onlyCurrentYearDf Period.YoY = none := by
  decide

/-- C7 (amended): whenever at least one entity qualifies, the ranking exists
and contains exactly the candidate rows: it is a permutation of the qualifying
entries, sorted descending by growth rate, every retained row has strictly
positive previous-period total, and every manufacturer or category with
strictly positive previous-period total appears; when no entity qualifies the
call raises instead of returning an empty ranking. -/
theorem c7_growth_leader_ranking (df : List Record) (p : Period)
    (h : glEntries df p ≠ []) :
    ∃ out, identify_growth_leaders df p = some out ∧
      out.Perm (glEntries df p) ∧
      List.Sorted (fun a b : GLEntry => b.growth_rate ≤ a.growth_rate) out ∧
      (∀ e ∈ out, 0 < e.previous) ∧
      (∀ m ∈ firstDedup (df.map Record.manufacturer),
          0 < sumRegs ((previousRows df p).filter fun r =>
            decide (r.manufacturer = m)) →
          ∃ e ∈ out, e.etype = "Manufacturer" ∧ e.name = m) ∧
      (∀ c ∈ firstDedup (df.map Record.vehicle_category),
          0 < sumRegs ((previousRows df p).filter fun r =>
            decide (r.vehicle_category = c)) →
          ∃ e ∈ out, e.etype = "Category" ∧ e.name = c) := by
  have htrans : ∀ a b c : GLEntry,
      decide (b.growth_rate ≤ a.growth_rate) = true →
      decide (c.growth_rate ≤ b.growth_rate) = true →
      decide (c.growth_rate ≤ a.growth_rate) = true := by
    intro a b c h1 h2
    simp only [decide_eq_true_eq] at h1 h2 ⊢
    exact le_trans h2 h1
  have htotal : ∀ a b : GLEntry,
      (decide (b.growth_rate ≤ a.growth_rate) ||
        decide (a.growth_rate ≤ b.growth_rate)) = true := by
    intro a b
    rcases le_total a.growth_rate b.growth_rate with hx | hx <;> simp [hx]
  have hperm : ((glEntries df p).mergeSort fun a b =>
      decide (b.growth_rate ≤ a.growth_rate)).Perm (glEntries df p) :=
    List.mergeSort_perm _ _
  refine ⟨(glEntries df p).mergeSort fun a b =>
      decide (b.growth_rate ≤ a.growth_rate), ?_, hperm, ?_, ?_, ?_, ?_⟩
  · simp only [identify_growth_leaders]
    rw [if_neg h]
  · exact List.Pairwise.imp (fun hx => of_decide_eq_true hx)
      (List.sorted_mergeSort htrans htotal _)
  · intro e he
    have he' : e ∈ glEntries df p := hperm.mem_iff.mp he
    rcases List.mem_append.mp he' with hx | hx <;>
    · obtain ⟨nm, _, hsome⟩ := List.mem_filterMap.mp hx
      exact (glFor_eq_some hsome).1
  · intro m hm hpt
    have hsome := glFor_pos "Manufacturer" Record.manufacturer m hpt
    refine ⟨_, hperm.mem_iff.mpr (List.mem_append.mpr (Or.inl
      (List.mem_filterMap.mpr ⟨m, hm, hsome⟩))), rfl, rfl⟩
  · intro c hc hpt
    have hsome := glFor_pos "Category" Record.vehicle_category c hpt
    refine ⟨_, hperm.mem_iff.mpr (List.mem_append.mpr (Or.inr
      (List.mem_filterMap.mpr ⟨c, hc, hsome⟩))), rfl, rfl⟩

unseal firstDedup in
/-- C7 witness: on a two-year collection the previous-year totals are
positive and the ranking exists. -/
theorem c7_growth_leader_ranking_witness :
    (identify_growth_leaders twoYearDf Period.YoY).isSome = true := by
  obtain ⟨out, hout, -⟩ :=
    c7_growth_leader_ranking twoYearDf Period.YoY (by decide)
  rw [hout]
  rfl

unseal firstDedup in
/-- C10: counterexample.  In this collection the latest record falls in Q1 of
the maximum year (its date is the maximum), yet an earlier year reaches Q2,
so the overall maximum quarter is 2, the previous window (max year, Q1) is
non-empty, and the call succeeds rather than failing as the claim predicts. -/
theorem c10_counterexample :
    Date.quarter ⟨2024, 1, 1⟩ = 1 ∧
    Date.ord ⟨2023, 5, 1⟩ < Date.ord ⟨2024, 1, 1⟩ ∧
    maxYear q1LatestDf = 2024 ∧
    maxQuarter q1LatestDf = 2 ∧
    (identify_growth_leaders q1LatestDf Period.QoQ).isSome = true := by
  refine ⟨by decide, by decide, by decide, by decide, by decide⟩

/-- C10 (amended): with period QoQ the previous window is the records of the
maximum year whose quarter is the overall maximum quarter minus one, never
wrapping to Q4 of the preceding year; when every record of the collection
lies in a first quarter (so the overall maximum quarter is 1), the previous
window is empty, no entity has a strictly positive previous total, and the
final descending sort is applied to an empty ranking frame with no
Growth_Rate column, so the call fails (none) rather than returning an empty
ranking. -/
theorem c10_qoq_all_q1_failure (df : List Record) (hne : df ≠ [])
    (hq : ∀ r ∈ df, r.date.quarter = 1) :
    identify_growth_leaders df Period.QoQ = none := by
  have hmapne : df.map (fun r => r.date.quarter) ≠ [] := by
    simpa using hne
  have hmq : maxQuarter df = 1 := by
    unfold maxQuarter
    refine maxInt_const hmapne ?_
    intro x hx
    obtain ⟨r, hr, rfl⟩ := List.mem_map.mp hx
    exact hq r hr
  have hprev : previousRows df Period.QoQ = [] := by
    simp only [previousRows]
    rw [List.filter_eq_nil_iff]
    intro r hr
    rw [hmq]
    simp [hq r hr]
  have hglfor : ∀ (etype : String) (keyf : Record → String) (nm : String),
      glFor df Period.QoQ etype keyf nm = none := by
    intro etype keyf nm
    simp only [glFor, hprev]
    simp [sumRegs]
  have hentries : glEntries df Period.QoQ = [] := by
    unfold glEntries
    rw [List.filterMap_eq_nil_iff.mpr fun a _ => hglfor _ _ a,
      List.filterMap_eq_nil_iff.mpr fun a _ => hglfor _ _ a]
    rfl
  simp only [identify_growth_leaders]
  rw [if_pos hentries]

/-- C10 witness: the amended failure clause instantiated on a one-record
Q1-only collection. -/
theorem c10_qoq_all_q1_failure_witness :
    identify_growth_leaders
      [⟨⟨2024, 1, 1⟩, "2W", "MOTORCYCLE", "Hero MotoCorp", "Maharashtra", 9⟩]
      Period.QoQ = none :=
  c10_qoq_all_q1_failure _ (by decide) (by decide)

end VehicleDash
